import Mathlib

/-!
Verification of the placeholder discovery/substitution engine of the
form-py repository (three Python variants: `server.py`, `server-new.py`,
`server-gemini.py`) against its natural-language specification.

Text is modelled as `List Char`.  Python strings map to `List Char`,
Python dicts of field data map to association lists (`FieldMap`) whose
keys are unique, and the mutable `docx` tree maps to the purely
functional structures below.  All definitions are translated from the
Python source; the regular expressions of the source are embedded as
explicit character scanners whose semantics (leftmost, non-overlapping
matching with single-character restart on failure) follow Python's
`re.findall`.  Recursive scanners take an explicit fuel argument equal
to the text length so that every definition is structurally recursive
and evaluates inside the kernel.
-/

/-- The left-brace character of the `\x7b\x7bfield\x7d\x7d` delimiters. -/
def lb : Char := '{'

/-- The right-brace character of the delimiters. -/
def rb : Char := '}'

/-- Convert a string literal to the `List Char` text representation. -/
def chars (s : String) : List Char := s.toList

/-- A run: one uniformly formatted text fragment of a paragraph
(`run.text` of python-docx). -/
abbrev Run := List Char

/-- A paragraph (Region): an ordered list of runs.  Its flattened text
(`paragraph.text`) is the concatenation of its runs' texts. -/
abbrev Paragraph := List Run

/-- A caller-supplied field map: name-to-value association list with
unique keys (models the Python dict `fields_data`). -/
abbrev FieldMap := List (List Char × List Char)

/-- `paragraph.text` of python-docx: the concatenation of run texts. -/
def flattenRuns (runs : List Run) : List Char := runs.foldl (· ++ ·) []

/-- The ASCII whitespace characters recognised by Python's `str.strip`
and by the regex class `\s` (the embedding restricts to ASCII). -/
def isPySpace (c : Char) : Bool :=
  c == ' ' || c == '\t' || c == '\n' || c == '\r' || c == '\x0b' || c == '\x0c'

/-- Python `str.strip()`: drop leading and trailing whitespace. -/
def pyStrip (s : List Char) : List Char :=
  ((s.dropWhile isPySpace).reverse.dropWhile isPySpace).reverse

/-- The last character of a list, as a one-element list (empty input
gives the empty list).  Used to express the regex capture of
`\s*([^{}]+?)\s*` on an all-whitespace inner text. -/
def lastOne (s : List Char) : List Char :=
  match s.reverse with
  | [] => []
  | c :: _ => [c]

/-- Python's substring test `pat in s` (also `re.search` of the literal
pattern): does `pat` occur as a contiguous substring of `s`? -/
def occursIn (pat s : List Char) : Bool :=
  match s with
  | [] => pat.isPrefixOf []
  | c :: rest => pat.isPrefixOf (c :: rest) || occursIn pat rest

/-- The literal pattern `f"\x7b\x7b{field}\x7d\x7d"` built by
`replace_in_runs` (server.py) and `_replace_in_paragraph_or_cell`
(server-gemini.py, where `re.escape` makes the regex literal); also the
no-space branch of `replace_in_text` (server-new.py). -/
def tokenPat (f : List Char) : List Char := lb :: lb :: f ++ [rb, rb]

/-- The one-space-padded pattern `f"\x7b\x7b {field} \x7d\x7d"` built by
the `' ' in field` branch of `replace_in_text` (server-new.py). -/
def spacedPat (f : List Char) : List Char := lb :: lb :: ' ' :: f ++ [' ', rb, rb]

/-!
### The two token grammars

`server.py` (and `server-gemini.py`) discover fields with
`re.findall` of the regex `two left braces, ([^\x7d]+), two right
braces`: the inner run is the maximal nonempty run of characters other
than a right brace (left braces are allowed inside), captured verbatim.

`server-new.py` discovers fields with `re.findall` of the regex
`two left braces, \s*([^\x7b\x7d]+?)\s*, two right braces`: the inner
run is the maximal nonempty run of non-brace characters; the capture is
that run stripped of surrounding whitespace, except that an
all-whitespace run captures its final character (the lazy group must
take at least one character).
-/

/-- One match attempt of the server.py regex at the head of `s`.
Returns the captured inner text and the remainder after the match.
The attempt succeeds iff `s` starts with two left braces followed by a
nonempty run of non-right-brace characters followed by two right
braces; greedy `[^\x7d]+` cannot backtrack usefully, so failure
otherwise is faithful. -/
def matchToken1 (s : List Char) : Option (List Char × List Char) :=
  match s with
  | a :: b :: rest =>
    if a = lb ∧ b = lb then
      match rest.dropWhile (fun c => c != rb) with
      | x :: y :: after =>
        if x = rb ∧ y = rb ∧ rest.takeWhile (fun c => c != rb) ≠ [] then
          some (rest.takeWhile (fun c => c != rb), after)
        else none
      | _ => none
    else none
  | _ => none

/-- The regex capture of `\s*([^\x7b\x7d]+?)\s*` applied to the inner
run `r` (nonempty, brace-free): the run stripped of surrounding
whitespace, or the run's last character when the run is all
whitespace. -/
def capture2 (r : List Char) : List Char :=
  if pyStrip r = [] then lastOne r else pyStrip r

/-- One match attempt of the server-new.py regex at the head of `s`:
two left braces, then a nonempty run of non-brace characters, then two
right braces; the capture is `capture2` of the run. -/
def matchToken2 (s : List Char) : Option (List Char × List Char) :=
  match s with
  | a :: b :: rest =>
    if a = lb ∧ b = lb then
      match rest.dropWhile (fun c => c != lb && c != rb) with
      | x :: y :: after =>
        if x = rb ∧ y = rb ∧ rest.takeWhile (fun c => c != lb && c != rb) ≠ [] then
          some (capture2 (rest.takeWhile (fun c => c != lb && c != rb)), after)
        else none
      | _ => none
    else none
  | _ => none

/-- `re.findall` scanner for the server.py regex: try a match at each
position; on success continue after the match (non-overlapping), on
failure restart one character later.  `fuel` bounds the recursion and
is instantiated with the text length. -/
def findTokensAux1 : Nat → List Char → List (List Char)
  | 0, _ => []
  | Nat.succ n, s =>
    match s with
    | [] => []
    | c :: rest =>
      match matchToken1 (c :: rest) with
      | some (cap, after) => cap :: findTokensAux1 n after
      | none => findTokensAux1 n rest

/-- `re.findall(two left braces ([^\x7d]+) two right braces, text)`:
the field occurrences found by `extract_fields_from_text` in server.py
(and server-gemini.py), in order, uncollapsed. -/
def findTokens1 (s : List Char) : List (List Char) := findTokensAux1 s.length s

/-- `re.findall` scanner for the server-new.py regex. -/
def findTokensAux2 : Nat → List Char → List (List Char)
  | 0, _ => []
  | Nat.succ n, s =>
    match s with
    | [] => []
    | c :: rest =>
      match matchToken2 (c :: rest) with
      | some (cap, after) => cap :: findTokensAux2 n after
      | none => findTokensAux2 n rest

/-- The field occurrences found by `extract_fields` in server-new.py
(also computed by `replace_in_text` as `fields_in_text`), in order. -/
def findTokens2 (s : List Char) : List (List Char) := findTokensAux2 s.length s

/-- Python `s.replace(pat, repl)` together with `s.count(pat)`:
replace the leftmost non-overlapping occurrences of `pat` and count
them (`re.sub`/`re.finditer` of the escaped literal pattern agree with
this).  `fuel` is instantiated with the text length; `pat` is always a
nonempty delimiter pattern at every call site. -/
def replaceAllAux (pat repl : List Char) : Nat → List Char → List Char × Nat
  | 0, s => (s, 0)
  | Nat.succ _, [] => ([], 0)
  | Nat.succ n, c :: rest =>
    if pat.isPrefixOf (c :: rest) then
      let r := replaceAllAux pat repl n ((c :: rest).drop pat.length)
      (repl ++ r.1, r.2 + 1)
    else
      let r := replaceAllAux pat repl n rest
      (c :: r.1, r.2)

/-- `s.replace(pat, repl)` paired with the number of occurrences
replaced. -/
def pyReplaceCount (pat repl s : List Char) : List Char × Nat :=
  replaceAllAux pat repl s.length s

/-- The body of the per-field loop shared by `replace_in_runs`
(server.py) and `_replace_in_paragraph_or_cell` (server-gemini.py):
for a field/value pair, if the literal token pattern occurs in the
working text, replace all its occurrences and add their number to the
count. -/
def passStep (st : List Char × Nat) (fv : List Char × List Char) : List Char × Nat :=
  if occursIn (tokenPat fv.1) st.1 then
    let r := pyReplaceCount (tokenPat fv.1) fv.2 st.1
    (r.1, st.2 + r.2)
  else st

/-- The whole per-text field loop of server.py / server-gemini.py:
iterate `passStep` over the field map entries in order, starting from
the original text, threading the evolving text through later entries
exactly as the Python loop mutates `new_text`. -/
def replaceFieldsPass (fields_data : FieldMap) (text : List Char) : List Char × Nat :=
  List.foldl passStep (text, 0) fields_data

/-- `replace_in_runs` of server.py: each run's text is processed
independently by the field loop and written back; the counts are
summed over the runs. -/
def replaceInRuns (paragraph : Paragraph) (fields_data : FieldMap) : Paragraph × Nat :=
  paragraph.foldl
    (fun acc run =>
      let r := replaceFieldsPass fields_data run
      (acc.1 ++ [r.1], acc.2 + r.2))
    ([], 0)

/-! ### server-gemini.py substitution

server-gemini replaces with `re.sub(pattern, str(value), new_text)`.
The pattern is `re.escape`d, hence literal, but the replacement string
is a template: Python processes backslash escapes and group references
in it and raises `re.error` (or `IndexError`) on invalid ones.  The
template machinery is embedded below; a raised exception is modelled
as `none`.  Since the pattern is literal and has no capture groups,
every match equals the pattern itself, so a group-0 reference inserts
the token pattern and every other group reference is invalid. -/

/-- An octal digit (Python's `OCTDIGITS`). -/
def isOctDigit (c : Char) : Bool := '0' ≤ c && c ≤ '7'

/-- The value of a string of octal digits. -/
def octVal (ds : List Char) : Nat := ds.foldl (fun a c => a * 8 + (c.toNat - 48)) 0

/-- The value of a string of decimal digits. -/
def decVal (ds : List Char) : Nat := ds.foldl (fun a c => a * 10 + (c.toNat - 48)) 0

/-- The replacement-template escape table of Python's `re` (the
`ESCAPES` of its template parser): bell, backspace, form feed, newline,
carriage return, tab, vertical tab, and backslash itself. -/
def escChar (c : Char) : Option Char :=
  if c = 'a' then some '\x07'
  else if c = 'b' then some '\x08'
  else if c = 'f' then some '\x0c'
  else if c = 'n' then some '\n'
  else if c = 'r' then some '\r'
  else if c = 't' then some '\t'
  else if c = 'v' then some '\x0b'
  else if c = '\\' then some '\\'
  else none

/-- Python's `parse_template` specialised to a pattern with no capture
groups, where group 0 is `matched`: a backslash starts, in order, a
`g`-delimited group reference (only group 0 is valid: a nonempty
all-ASCII-digit name of value 0 — the lenient number forms Python's
deprecated `int()` fallback still accepts are treated as the errors
they have since become), an octal escape (a zero then up to two more
octal digits, or three octal digits valued at most 255), an invalid
group reference (any other digit form — always an error here since the
pattern has no groups), a known single-letter escape, a bad escape (any
other ASCII letter, or a trailing backslash), or a literal
backslash-plus-character pair; every other character stands for
itself.  `none` models the raised exception; `fuel` is instantiated
with the template length. -/
def parseTemplateAux (matched : List Char) : Nat → List Char → Option (List Char)
  | 0, _ => some []
  | Nat.succ _, [] => some []
  | Nat.succ n, c :: rest =>
    if c = '\\' then
      match rest with
      | [] => none
      | e :: rest2 =>
        if e = 'g' then
          match rest2 with
          | lt :: rest3 =>
            if lt = '<' then
              match rest3.dropWhile (fun d => d != '>') with
              | _ :: rest4 =>
                if rest3.takeWhile (fun d => d != '>') ≠ [] ∧
                    (rest3.takeWhile (fun d => d != '>')).all Char.isDigit then
                  if decVal (rest3.takeWhile (fun d => d != '>')) = 0 then
                    (parseTemplateAux matched n rest4).map (fun t => matched ++ t)
                  else none
                else none
              | [] => none
            else none
          | [] => none
        else if e = '0' then
          (parseTemplateAux matched n
              (rest2.drop ((rest2.takeWhile isOctDigit).take 2).length)).map
            (fun t => Char.ofNat (octVal (e :: (rest2.takeWhile isOctDigit).take 2)) :: t)
        else if e.isDigit then
          match rest2 with
          | d2 :: d3 :: rest3 =>
            if isOctDigit e ∧ isOctDigit d2 ∧ isOctDigit d3 then
              if octVal [e, d2, d3] ≤ 255 then
                (parseTemplateAux matched n rest3).map
                  (fun t => Char.ofNat (octVal [e, d2, d3]) :: t)
              else none
            else none
          | _ => none
        else
          match escChar e with
          | some ch => (parseTemplateAux matched n rest2).map (fun t => ch :: t)
          | none =>
            if e.isAlpha then none
            else (parseTemplateAux matched n rest2).map (fun t => '\\' :: e :: t)
    else (parseTemplateAux matched n rest).map (fun t => c :: t)

/-- The expanded replacement text of `re.sub`'s template `repl` for a
groupless literal pattern whose every match is `matched`, or `none`
when template parsing raises. -/
def parseTemplate (repl matched : List Char) : Option (List Char) :=
  parseTemplateAux matched repl.length repl

/-- The body of the per-field loop of `_replace_in_paragraph_or_cell`
in server-gemini.py: if the literal token pattern occurs in the working
text (`if matches:`), expand the value as a `re.sub` replacement
template and replace every occurrence, adding their number to the
count; an exception raised by the template (`none`) aborts the whole
loop, as the Python exception propagates out of the function. -/
def passStepGemini (st : Option (List Char × Nat)) (fv : List Char × List Char) :
    Option (List Char × Nat) :=
  match st with
  | none => none
  | some st =>
    if occursIn (tokenPat fv.1) st.1 then
      match parseTemplate fv.2 (tokenPat fv.1) with
      | some expanded =>
        let r := pyReplaceCount (tokenPat fv.1) expanded st.1
        some (r.1, st.2 + r.2)
      | none => none
    else some st

/-- The whole per-text field loop of `_replace_in_paragraph_or_cell`
in server-gemini.py, threading the evolving text through later entries;
`none` is a raised exception. -/
def replaceFieldsPassGemini (data_map : FieldMap) (text : List Char) :
    Option (List Char × Nat) :=
  List.foldl passStepGemini (some (text, 0)) data_map

/-- `_replace_in_paragraph_or_cell` of server-gemini.py: the field loop
runs on the paragraph's flattened text (`paragraph.text`); when at
least one replacement happened the paragraph is rewritten by assigning
`paragraph.text`, which collapses it to a single run; a template
exception propagates (`none`). -/
def replaceInParagraphOrCell (paragraph : Paragraph) (data_map : FieldMap) :
    Option (Paragraph × Nat) :=
  match replaceFieldsPassGemini data_map (flattenRuns paragraph) with
  | some r => some (if 0 < r.2 then ([r.1], r.2) else (paragraph, 0))
  | none => none

/-- The body of the per-field loop of `replace_in_text` in
server-new.py: strip the captured field, look it up in the field map;
on success rebuild the pattern from the capture (one-space padding iff
the capture itself contains a space), replace its occurrences, and
count one regardless of whether the pattern actually occurred. -/
def newStep (fields_data : FieldMap) (st : List Char × Nat) (field : List Char) :
    List Char × Nat :=
  match List.lookup (pyStrip field) fields_data with
  | some v =>
    let original_pattern := if field.contains ' ' then spacedPat field else tokenPat field
    ((pyReplaceCount original_pattern v st.1).1, st.2 + 1)
  | none => st

/-- `replace_in_text` of server-new.py: the fields are located once in
the original text (single pass), then each located occurrence drives
one lookup/replace step on the evolving text. -/
def replaceInText (text : List Char) (fields_data : FieldMap) : List Char × Nat :=
  List.foldl (newStep fields_data) (text, 0) (findTokens2 text)

/-- The per-paragraph step of `replace_fields_in_document` in
server-new.py: run `replace_in_text` on the flattened text and rewrite
the paragraph (collapsing it to one run) exactly when the count is
positive. -/
def replaceParagraphNew (paragraph : Paragraph) (fields_data : FieldMap) :
    Paragraph × Nat :=
  let r := replaceInText (flattenRuns paragraph) fields_data
  if 0 < r.2 then ([r.1], r.2) else (paragraph, 0)


/-! ### The document model

A `docx` document as the three variants access it: body paragraphs,
tables (rows of cells of paragraphs), and per-section header/footer
parts.  python-docx guards such as `if section.header:` are modelled by
`Option`: an absent part contributes nothing. -/

/-- A header or footer part: its paragraphs in document order. -/
abbrev HdrFtr := List Paragraph

/-- A table: rows, each a list of cells, each a list of paragraphs. -/
structure DocxTable where
  rows : List (List (List Paragraph))
deriving DecidableEq

/-- A section with its six header/footer variants, each optional. -/
structure DocxSection where
  header : Option HdrFtr
  even_page_header : Option HdrFtr
  first_page_header : Option HdrFtr
  footer : Option HdrFtr
  even_page_footer : Option HdrFtr
  first_page_footer : Option HdrFtr
deriving DecidableEq

/-- The loaded document tree. -/
structure DocxDocument where
  paragraphs : List Paragraph
  tables : List DocxTable
  sections : List DocxSection
deriving DecidableEq

/-- The paragraphs of an optional header/footer part (`if part:` then
iterate `part.paragraphs`, else nothing). -/
def optPartParagraphs (p : Option HdrFtr) : List Paragraph :=
  match p with
  | some part => part
  | none => []

/-- The paragraphs a table contributes, row-major then cell-major, as
iterated by every variant. -/
def tableParagraphs (t : DocxTable) : List Paragraph :=
  t.rows.foldl (fun acc row => acc ++ row.foldl (fun a cell => a ++ cell) []) []

/-- The header/footer paragraphs one section contributes to
`find_template_fields` in server-gemini.py, in the order of its
`if` blocks: header, even_page_header, first_page_header, footer,
even_page_footer, first_page_footer. -/
def sectionPartsFindGemini (s : DocxSection) : List Paragraph :=
  optPartParagraphs s.header ++ optPartParagraphs s.even_page_header ++
    optPartParagraphs s.first_page_header ++ optPartParagraphs s.footer ++
    optPartParagraphs s.even_page_footer ++ optPartParagraphs s.first_page_footer

/-- The region (paragraph) sequence visited by `find_template_fields`
in server-gemini.py: body paragraphs, then tables, then per-section
header/footer parts. -/
def enumRegionsFindGemini (d : DocxDocument) : List Paragraph :=
  d.paragraphs ++ d.tables.foldl (fun acc t => acc ++ tableParagraphs t) [] ++
    d.sections.foldl (fun acc s => acc ++ sectionPartsFindGemini s) []

/-- The header/footer paragraphs one section contributes to
`replace_fields_in_document` in server-gemini.py, in the order of its
`if` blocks: header, even_page_header, first_page_header, footer,
even_page_footer, first_page_footer. -/
def sectionPartsReplaceGemini (s : DocxSection) : List Paragraph :=
  optPartParagraphs s.header ++ optPartParagraphs s.even_page_header ++
    optPartParagraphs s.first_page_header ++ optPartParagraphs s.footer ++
    optPartParagraphs s.even_page_footer ++ optPartParagraphs s.first_page_footer

/-- The region sequence visited by `replace_fields_in_document` in
server-gemini.py. -/
def enumRegionsReplaceGemini (d : DocxDocument) : List Paragraph :=
  d.paragraphs ++ d.tables.foldl (fun acc t => acc ++ tableParagraphs t) [] ++
    d.sections.foldl (fun acc s => acc ++ sectionPartsReplaceGemini s) []

/-- The header/footer paragraphs one section contributes in server.py
(and server-new.py): only the primary header and primary footer are
visited. -/
def sectionPartsPy (s : DocxSection) : List Paragraph :=
  optPartParagraphs s.header ++ optPartParagraphs s.footer

/-- The region sequence visited by `find_template_fields` in
server.py. -/
def enumRegionsFindPy (d : DocxDocument) : List Paragraph :=
  d.paragraphs ++ d.tables.foldl (fun acc t => acc ++ tableParagraphs t) [] ++
    d.sections.foldl (fun acc s => acc ++ sectionPartsPy s) []

/-- The region sequence visited by `replace_fields_in_document` in
server.py. -/
def enumRegionsReplacePy (d : DocxDocument) : List Paragraph :=
  d.paragraphs ++ d.tables.foldl (fun acc t => acc ++ tableParagraphs t) [] ++
    d.sections.foldl (fun acc s => acc ++ sectionPartsPy s) []

/-- Modelled from the spec's words (spec section 4.1, claim C5), for
comparison with the code's enumeration: the claimed per-section order
is primary header, first-page header, even-page header, primary
footer, first-page footer, even-page footer. -/
def sectionPartsClaimed (s : DocxSection) : List Paragraph :=
  optPartParagraphs s.header ++ optPartParagraphs s.first_page_header ++
    optPartParagraphs s.even_page_header ++ optPartParagraphs s.footer ++
    optPartParagraphs s.first_page_footer ++ optPartParagraphs s.even_page_footer

/-- Modelled from the spec's words: the full claimed enumeration
order. -/
def enumRegionsClaimed (d : DocxDocument) : List Paragraph :=
  d.paragraphs ++ d.tables.foldl (fun acc t => acc ++ tableParagraphs t) [] ++
    d.sections.foldl (fun acc s => acc ++ sectionPartsClaimed s) []

/-! ### server.py document-level substitution -/

/-- Apply server.py's `replace_in_runs` to a list of paragraphs,
rebuilding them and summing the counts. -/
def replaceParagraphListPy (ps : List Paragraph) (m : FieldMap) :
    List Paragraph × Nat :=
  ps.foldl
    (fun acc p =>
      let r := replaceInRuns p m
      (acc.1 ++ [r.1], acc.2 + r.2))
    ([], 0)

/-- server.py substitution over one table. -/
def replaceTablePy (t : DocxTable) (m : FieldMap) : DocxTable × Nat :=
  let r := t.rows.foldl
    (fun acc row =>
      let rr := row.foldl
        (fun acc2 cell =>
          let cr := replaceParagraphListPy cell m
          (acc2.1 ++ [cr.1], acc2.2 + cr.2))
        ([], 0)
      (acc.1 ++ [rr.1], acc.2 + rr.2))
    ([], 0)
  (⟨r.1⟩, r.2)

/-- server.py substitution over an optional header/footer part. -/
def replaceOptPartPy (p : Option HdrFtr) (m : FieldMap) : Option HdrFtr × Nat :=
  match p with
  | some part =>
    let r := replaceParagraphListPy part m
    (some r.1, r.2)
  | none => (none, 0)

/-- server.py substitution over one section: only the primary header
and footer are visited. -/
def replaceSectionPy (s : DocxSection) (m : FieldMap) : DocxSection × Nat :=
  let h := replaceOptPartPy s.header m
  let f := replaceOptPartPy s.footer m
  (⟨h.1, s.even_page_header, s.first_page_header, f.1, s.even_page_footer,
    s.first_page_footer⟩, h.2 + f.2)

/-- `replace_fields_in_document` of server.py: body paragraphs, then
tables, then sections, accumulating the replacement count. -/
def replaceFieldsInDocumentPy (doc : DocxDocument) (fields_data : FieldMap) :
    DocxDocument × Nat :=
  let b := replaceParagraphListPy doc.paragraphs fields_data
  let t := doc.tables.foldl
    (fun acc tb =>
      let r := replaceTablePy tb fields_data
      (acc.1 ++ [r.1], acc.2 + r.2))
    ([], 0)
  let s := doc.sections.foldl
    (fun acc sec =>
      let r := replaceSectionPy sec fields_data
      (acc.1 ++ [r.1], acc.2 + r.2))
    ([], 0)
  (⟨b.1, t.1, s.1⟩, b.2 + t.2 + s.2)

/-! ### Concrete inputs used by the claim theorems -/

/-- A paragraph whose token is split across two runs. -/
def runsC1 : Paragraph := [[lb, lb, 'n', 'a'], ['m', 'e', rb, rb]]

/-- A document whose single body paragraph is `runsC1`. -/
def docC1 : DocxDocument := ⟨[runsC1], [], []⟩

/-- Field map binding `name` to `X`. -/
def mapC1 : FieldMap := [(chars (r"name"), chars (r"X"))]

/-- The text of a token with one-space interior padding around `name`. -/
def padNameTok : List Char := tokenPat (chars (r" name "))

/-- The text of the unpadded `name` token. -/
def plainNameTok : List Char := tokenPat (chars (r"name"))

/-- The text of a token with one-space interior padding around `a`. -/
def padA : List Char := tokenPat (chars (r" a "))

/-- Field map binding `a` to `1`. -/
def mapA1 : FieldMap := [(chars (r"a"), chars (r"1"))]

/-- Field map binding `a` to the literal `b` token and `b` to `X`. -/
def mapC4 : FieldMap := [(chars (r"a"), tokenPat ['b']), (chars (r"b"), chars (r"X"))]

/-- A malformed span: an open token interrupted by a nested opening
delimiter (two left braces, x, two left braces, y, two right braces). -/
def nestedTok : List Char := [lb, lb, 'x', lb, lb, 'y', rb, rb]

/-- Field map binding `y` to `Z`. -/
def mapY : FieldMap := [(chars (r"y"), chars (r"Z"))]

/-- The empty-name token text (two left braces, two right braces). -/
def emptyTok : List Char := [lb, lb, rb, rb]

/-- The whitespace-only token text (delimiters around two spaces). -/
def wsTok : List Char := [lb, lb, ' ', ' ', rb, rb]

/-- Field map whose only key is the empty string. -/
def emptyKeyMap : FieldMap := [([], chars (r"X"))]

/-- An unterminated opening delimiter with no closing delimiter. -/
def unterminatedTok : List Char := lb :: lb :: chars (r"unterminated")

/-- Field map binding `unterminated` to `X`. -/
def mapUnterminated : FieldMap := [(chars (r"unterminated"), chars (r"X"))]

/-- Field map whose only key is the space-padded string around `a`. -/
def spacedKeyMap : FieldMap := [([' ', 'a', ' '], chars (r"X"))]

/-- A paragraph of two runs whose flattened text is the padded `a`
token. -/
def runsC8 : Paragraph := [[lb, lb, ' '], ['a', ' ', rb, rb]]

/-- A section with only an even-page header and a first-page header,
holding distinct one-run paragraphs. -/
def secC5 : DocxSection := ⟨none, some [[['E']]], some [[['F']]], none, none, none⟩

/-- A document with one section, `secC5`. -/
def docC5 : DocxDocument := ⟨[], [], [secC5]⟩

/-! ### Basic lemmas about the substring test and the scanners -/

/-- `occursIn` agrees with the contiguous-substring relation. -/
theorem occursIn_eq_true_iff {pat s : List Char} : occursIn pat s = true ↔ pat <:+: s := by
  induction s with
  | nil =>
    simp [occursIn, List.isPrefixOf_iff_prefix, List.prefix_nil, List.infix_nil]
  | cons c rest ih =>
    simp [occursIn, List.isPrefixOf_iff_prefix, ih, List.infix_cons_iff]

/-- A substring is a substring of any extension by one head character. -/
theorem subOfTail {pat : List Char} {c : Char} {rest : List Char}
    (h : occursIn pat rest = true) : occursIn pat (c :: rest) = true := by
  have := occursIn_eq_true_iff.1 h
  exact occursIn_eq_true_iff.2 (this.trans (List.suffix_cons c rest).isInfix)

/-- If `pat` does not occur in `c :: rest` it does not occur in `rest`. -/
theorem occursIn_tail_eq_false {pat : List Char} {c : Char} {rest : List Char}
    (h : occursIn pat (c :: rest) = false) : occursIn pat rest = false := by
  cases hr : occursIn pat rest with
  | false => rfl
  | true => rw [subOfTail hr] at h; cases h

/-- Substring occurrence is monotone along the substring order. -/
theorem occursIn_mono {p q s : List Char} (hpq : p <:+: q)
    (h : occursIn q s = true) : occursIn p s = true :=
  occursIn_eq_true_iff.2 (hpq.trans (occursIn_eq_true_iff.1 h))

/-- The two left braces start every token pattern. -/
theorem braces_ll_sub_tokenPat (f : List Char) : [lb, lb] <:+: tokenPat f :=
  (show ([lb, lb] : List Char) <+: tokenPat f from ⟨f ++ [rb, rb], rfl⟩).isInfix

/-- The two right braces end every token pattern. -/
theorem braces_rr_sub_tokenPat (f : List Char) : [rb, rb] <:+: tokenPat f :=
  (show ([rb, rb] : List Char) <:+ tokenPat f from
    ⟨lb :: lb :: f, by simp [tokenPat]⟩).isInfix

/-- A successful server.py match attempt exposes both delimiter pairs
as substrings of the scanned text. -/
theorem matchToken1_some_braces {s : List Char} {r : List Char × List Char}
    (h : matchToken1 s = some r) :
    occursIn [lb, lb] s = true ∧ occursIn [rb, rb] s = true := by
  match s with
  | [] => exact absurd h (by simp [matchToken1])
  | [a] => exact absurd h (by simp [matchToken1])
  | a :: b :: rest =>
    rw [matchToken1] at h
    split at h
    case isFalse => exact absurd h (by simp)
    case isTrue hab =>
      obtain ⟨ha, hb⟩ := hab
      subst ha; subst hb
      constructor
      · exact occursIn_eq_true_iff.2
          (show ([lb, lb] : List Char) <+: lb :: lb :: rest from ⟨rest, rfl⟩).isInfix
      · split at h
        case h_2 => exact absurd h (by simp)
        case h_1 x y after heq =>
          split at h
          case isFalse => exact absurd h (by simp)
          case isTrue hxy =>
            obtain ⟨hx, hy, -⟩ := hxy
            subst hx; subst hy
            have h1 : ([rb, rb] : List Char) <:+: rb :: rb :: after :=
              (show ([rb, rb] : List Char) <+: rb :: rb :: after from ⟨after, rfl⟩).isInfix
            have h2 : (rb :: rb :: after) <:+: rest := by
              rw [← heq]; exact (List.dropWhile_suffix _).isInfix
            have h3 : rest <:+: lb :: lb :: rest :=
              ((List.suffix_cons lb rest).trans (List.suffix_cons lb (lb :: rest))).isInfix
            exact occursIn_eq_true_iff.2 ((h1.trans h2).trans h3)

/-- A successful server-new.py match attempt exposes both delimiter
pairs as substrings of the scanned text. -/
theorem matchToken2_some_braces {s : List Char} {r : List Char × List Char}
    (h : matchToken2 s = some r) :
    occursIn [lb, lb] s = true ∧ occursIn [rb, rb] s = true := by
  match s with
  | [] => exact absurd h (by simp [matchToken2])
  | [a] => exact absurd h (by simp [matchToken2])
  | a :: b :: rest =>
    rw [matchToken2] at h
    split at h
    case isFalse => exact absurd h (by simp)
    case isTrue hab =>
      obtain ⟨ha, hb⟩ := hab
      subst ha; subst hb
      constructor
      · exact occursIn_eq_true_iff.2
          (show ([lb, lb] : List Char) <+: lb :: lb :: rest from ⟨rest, rfl⟩).isInfix
      · split at h
        case h_2 => exact absurd h (by simp)
        case h_1 x y after heq =>
          split at h
          case isFalse => exact absurd h (by simp)
          case isTrue hxy =>
            obtain ⟨hx, hy, -⟩ := hxy
            subst hx; subst hy
            have h1 : ([rb, rb] : List Char) <:+: rb :: rb :: after :=
              (show ([rb, rb] : List Char) <+: rb :: rb :: after from ⟨after, rfl⟩).isInfix
            have h2 : (rb :: rb :: after) <:+: rest := by
              rw [← heq]; exact (List.dropWhile_suffix _).isInfix
            have h3 : rest <:+: lb :: lb :: rest :=
              ((List.suffix_cons lb rest).trans (List.suffix_cons lb (lb :: rest))).isInfix
            exact occursIn_eq_true_iff.2 ((h1.trans h2).trans h3)

/-- A text in which one of the delimiter pairs never occurs contains no
server.py token match. -/
theorem findTokensAux1_nil {s : List Char}
    (hs : occursIn [lb, lb] s = false ∨ occursIn [rb, rb] s = false) :
    ∀ n : Nat, findTokensAux1 n s = [] := by
  induction s with
  | nil => intro n; cases n <;> rfl
  | cons c rest ih =>
    intro n
    cases n with
    | zero => rfl
    | succ n =>
      rw [findTokensAux1]
      cases hm : matchToken1 (c :: rest) with
      | some r =>
        have := matchToken1_some_braces hm
        rcases hs with hs | hs
        · rw [this.1] at hs; cases hs
        · rw [this.2] at hs; cases hs
      | none =>
        exact ih (hs.imp occursIn_tail_eq_false occursIn_tail_eq_false) n

/-- A text in which one of the delimiter pairs never occurs contains no
server-new.py token match. -/
theorem findTokensAux2_nil {s : List Char}
    (hs : occursIn [lb, lb] s = false ∨ occursIn [rb, rb] s = false) :
    ∀ n : Nat, findTokensAux2 n s = [] := by
  induction s with
  | nil => intro n; cases n <;> rfl
  | cons c rest ih =>
    intro n
    cases n with
    | zero => rfl
    | succ n =>
      rw [findTokensAux2]
      cases hm : matchToken2 (c :: rest) with
      | some r =>
        have := matchToken2_some_braces hm
        rcases hs with hs | hs
        · rw [this.1] at hs; cases hs
        · rw [this.2] at hs; cases hs
      | none =>
        exact ih (hs.imp occursIn_tail_eq_false occursIn_tail_eq_false) n

/-- If the pattern is nonempty and occurs in the text, the replace loop
performs at least one replacement (fuel at least the text length). -/
theorem replaceAllAux_snd_pos (pat repl : List Char) (hp : pat ≠ []) :
    ∀ (n : Nat) (s : List Char), s.length ≤ n → occursIn pat s = true →
      0 < (replaceAllAux pat repl n s).2 := by
  intro n
  induction n with
  | zero =>
    intro s hlen hocc
    cases s with
    | nil =>
      rw [occursIn] at hocc
      exact absurd (List.prefix_nil.1 (List.isPrefixOf_iff_prefix.1 hocc)) hp
    | cons c rest => simp at hlen
  | succ n ih =>
    intro s hlen hocc
    cases s with
    | nil =>
      rw [occursIn] at hocc
      exact absurd (List.prefix_nil.1 (List.isPrefixOf_iff_prefix.1 hocc)) hp
    | cons c rest =>
      rw [replaceAllAux]
      cases hpre : pat.isPrefixOf (c :: rest) with
      | true => simp
      | false =>
        simp only [hpre, Bool.false_eq_true, if_false]
        have hocc' : occursIn pat rest = true := by
          rw [occursIn, hpre, Bool.false_or] at hocc
          exact hocc
        exact ih rest (Nat.le_of_succ_le_succ hlen) hocc'

/-- Same fact stated for `pyReplaceCount`. -/
theorem pyReplaceCount_snd_pos {pat : List Char} (repl s : List Char) (hp : pat ≠ [])
    (hocc : occursIn pat s = true) : 0 < (pyReplaceCount pat repl s).2 :=
  replaceAllAux_snd_pos pat repl hp s.length s (Nat.le_refl _) hocc

/-- The running count of the server.py / server-gemini.py field loop
never decreases. -/
theorem foldl_passStep_le :
    ∀ (m : FieldMap) (st : List Char × Nat), st.2 ≤ (List.foldl passStep st m).2 := by
  intro m
  induction m with
  | nil => intro st; exact Nat.le_refl _
  | cons fv m ih =>
    intro st
    have h1 : st.2 ≤ (passStep st fv).2 := by
      rw [passStep]
      cases hocc : occursIn (tokenPat fv.1) st.1 <;> simp [Nat.le_add_right]
    exact Nat.le_trans h1 (ih (passStep st fv))

/-- If some field map key's token pattern occurs in the working text,
the server.py / server-gemini.py field loop ends with a positive count. -/
theorem foldl_passStep_pos :
    ∀ (m : FieldMap) (st : List Char × Nat) (f v : List Char),
      List.lookup f m = some v → occursIn (tokenPat f) st.1 = true →
      0 < (List.foldl passStep st m).2 := by
  intro m
  induction m with
  | nil => intro st f v hl _; simp [List.lookup] at hl
  | cons gw m ih =>
    intro st f v hl hocc
    rw [List.foldl_cons]
    cases hgd : occursIn (tokenPat gw.1) st.1 with
    | true =>
      have hstep : 0 < (passStep st gw).2 := by
        rw [passStep, hgd]
        simp only [if_true]
        have := pyReplaceCount_snd_pos gw.2 st.1 (by simp [tokenPat]) hgd
        omega
      exact Nat.lt_of_lt_of_le hstep (foldl_passStep_le m (passStep st gw))
    | false =>
      have hne : (f == gw.1) = false := by
        cases hfg : f == gw.1 with
        | false => rfl
        | true =>
          have : f = gw.1 := by exact_mod_cast beq_iff_eq.1 hfg
          rw [this] at hocc
          rw [hocc] at hgd
          cases hgd
      have hl' : List.lookup f m = some v := by
        obtain ⟨g, w⟩ := gw
        rw [List.lookup] at hl
        simp only at hne
        rw [hne] at hl
        exact hl
      have hstid : passStep st gw = st := by
        rw [passStep, hgd]
        simp
      rw [hstid]
      exact ih st f v hl' hocc

/-- If no looked-up field of the located list is a key of the field
map, the server-new.py field loop leaves its state untouched. -/
theorem foldl_newStep_id (m : FieldMap) :
    ∀ (l : List (List Char)) (st : List Char × Nat),
      (∀ f ∈ l, List.lookup (pyStrip f) m = none) →
      List.foldl (newStep m) st l = st := by
  intro l
  induction l with
  | nil => intro st _; rfl
  | cons f l ih =>
    intro st hall
    rw [List.foldl_cons]
    have h1 : newStep m st f = st := by
      rw [newStep, hall f (List.mem_cons_self f l)]
    rw [h1]
    exact ih st (fun g hg => hall g (List.mem_cons_of_mem f hg))

/-- If one of the delimiter pairs never occurs in the text, the
server.py / server-gemini.py field loop leaves the text unchanged with
count zero, whatever the field map. -/
theorem foldl_passStep_id {s : List Char}
    (hs : occursIn [lb, lb] s = false ∨ occursIn [rb, rb] s = false) :
    ∀ m : FieldMap, List.foldl passStep (s, 0) m = (s, 0) := by
  intro m
  induction m with
  | nil => rfl
  | cons gw m ih =>
    rw [List.foldl_cons]
    have hgd : occursIn (tokenPat gw.1) s = false := by
      cases hx : occursIn (tokenPat gw.1) s with
      | false => rfl
      | true =>
        rcases hs with hs | hs
        · rw [occursIn_mono (braces_ll_sub_tokenPat gw.1) hx] at hs; cases hs
        · rw [occursIn_mono (braces_rr_sub_tokenPat gw.1) hx] at hs; cases hs
    have h1 : passStep (s, 0) gw = (s, 0) := by
      rw [passStep]
      simp [hgd]
    rw [h1, ih]

/-- Template parsing of a backslash-free replacement string is the
identity: every character stands for itself. -/
theorem parseTemplateAux_no_backslash (matched : List Char) :
    ∀ (n : Nat) (s : List Char), s.length ≤ n → List.contains s '\\' = false →
      parseTemplateAux matched n s = some s := by
  intro n
  induction n with
  | zero =>
    intro s hlen _
    cases s with
    | nil => rfl
    | cons c rest => simp at hlen
  | succ n ih =>
    intro s hlen hbs
    cases s with
    | nil => rfl
    | cons c rest =>
      rw [List.contains_cons, Bool.or_eq_false_iff] at hbs
      have hc : ¬ c = '\\' := by
        intro hcc
        rw [hcc] at hbs
        simp at hbs
      simp only [parseTemplateAux]
      rw [if_neg hc, ih rest (Nat.le_of_succ_le_succ hlen) hbs.2]
      rfl

/-- Same fact for `parseTemplate`. -/
theorem parseTemplate_of_no_backslash {repl : List Char} (matched : List Char)
    (h : List.contains repl '\\' = false) : parseTemplate repl matched = some repl :=
  parseTemplateAux_no_backslash matched repl.length repl (Nat.le_refl _) h

/-- When no field map value contains a backslash, every `re.sub`
template is literal, so server-gemini's field loop never raises and
agrees with the literal field loop of server.py. -/
theorem foldl_passStepGemini_eq_literal :
    ∀ (m : FieldMap) (st : List Char × Nat),
      (∀ p ∈ m, List.contains p.2 '\\' = false) →
      List.foldl passStepGemini (some st) m = some (List.foldl passStep st m) := by
  intro m
  induction m with
  | nil => intro st _; rfl
  | cons fv m ih =>
    intro st hall
    rw [List.foldl_cons, List.foldl_cons]
    have hfv : List.contains fv.2 '\\' = false := hall fv (List.mem_cons_self fv m)
    have hstep : passStepGemini (some st) fv = some (passStep st fv) := by
      rw [passStepGemini, passStep]
      cases hocc : occursIn (tokenPat fv.1) st.1 with
      | false => simp [hocc]
      | true => simp [hocc, parseTemplate_of_no_backslash (tokenPat fv.1) hfv]
    rw [hstep]
    exact ih (passStep st fv) (fun p hp => hall p (List.mem_cons_of_mem fv hp))


/-! ### Claim theorems -/

/-- C1, counterexample: in server.py, document-level substitution does
not replace a token whose text is split across two runs of a region,
even though the token occurs in the region's flattened text and its
name is a field map key — substitution there is per-run, not on the
flattened text, so the claim as stated fails on the code. -/
theorem c1_split_run_counterexample :
    occursIn (tokenPat (chars (r"name"))) (flattenRuns runsC1) = true ∧
    replaceFieldsInDocumentPy docC1 mapC1 = (docC1, 0) := ⟨rfl, rfl⟩

/-- C1, amended: in the server-gemini variant, substitution operates on
the region's flattened text: whenever no field map value contains a
backslash (a backslash makes the value a nontrivial replacement
template for the regex engine, which can alter the inserted text or
raise) and the flattened text contains a token of a field map key — in
particular when the token is split across runs — no exception is
raised, at least one replacement is performed, and the region is
rewritten from its flattened text. -/
theorem c1_flattened_substitution (runs : Paragraph) (m : FieldMap) (f v : List Char)
    (hvals : ∀ p ∈ m, List.contains p.2 '\\' = false)
    (hl : List.lookup f m = some v)
    (hocc : occursIn (tokenPat f) (flattenRuns runs) = true) :
    replaceInParagraphOrCell runs m =
      some ([(replaceFieldsPass m (flattenRuns runs)).1],
        (replaceFieldsPass m (flattenRuns runs)).2) ∧
    0 < (replaceFieldsPass m (flattenRuns runs)).2 := by
  have hpos : 0 < (replaceFieldsPass m (flattenRuns runs)).2 :=
    foldl_passStep_pos m (flattenRuns runs, 0) f v hl hocc
  have heq : replaceFieldsPassGemini m (flattenRuns runs) =
      some (replaceFieldsPass m (flattenRuns runs)) :=
    foldl_passStepGemini_eq_literal m (flattenRuns runs, 0) hvals
  refine ⟨?_, hpos⟩
  simp only [replaceInParagraphOrCell]
  rw [heq]
  show some (if 0 < (replaceFieldsPass m (flattenRuns runs)).2 then
      ([(replaceFieldsPass m (flattenRuns runs)).1],
        (replaceFieldsPass m (flattenRuns runs)).2)
    else (runs, 0)) =
    some ([(replaceFieldsPass m (flattenRuns runs)).1],
      (replaceFieldsPass m (flattenRuns runs)).2)
  rw [if_pos hpos]

/-- C1, witness: the amended theorem applied to the split-run paragraph
`runsC1` and the backslash-free field map binding `name`. -/
theorem c1_flattened_substitution_witness :
    replaceInParagraphOrCell runsC1 mapC1 =
      some ([(replaceFieldsPass mapC1 (flattenRuns runsC1)).1],
        (replaceFieldsPass mapC1 (flattenRuns runsC1)).2) ∧
    0 < (replaceFieldsPass mapC1 (flattenRuns runsC1)).2 :=
  c1_flattened_substitution runsC1 mapC1 (chars (r"name")) (chars (r"X"))
    (by decide) rfl rfl

/-- C2, counterexample: server.py's discovery does not trim the
captured name — the padded `name` token discovers to the padded name,
not to `name`, so the two texts do not discover to the same singleton
set. -/
theorem c2_untrimmed_counterexample :
    findTokens1 padNameTok = [ chars (r" name ")] ∧
    findTokens1 plainNameTok = [ chars (r"name")] ∧
    ¬ chars (r" name ") = chars (r"name") := ⟨rfl, rfl, by decide⟩

/-- C2, amended: server-new.py's grammar strips surrounding whitespace
from the captured name, so the padded and unpadded `name` tokens both
discover to the single name `name`; server.py captures the inner text
verbatim. -/
theorem c2_server_new_trims :
    findTokens2 padNameTok = [ chars (r"name")] ∧
    findTokens2 plainNameTok = [ chars (r"name")] := ⟨rfl, rfl⟩

/-- C3, the code evaluated at the failing input: the padded `a` token
is discovered with trimmed name `a`, a key of the field map, yet
server-new.py's `replace_in_text` leaves the text unchanged while
still reporting a count of 1 — the rebuilt pattern drops the padding,
so the replace is a no-op but the count is incremented anyway. -/
theorem c3_padded_count_bug :
    findTokens2 padA = [ chars (r"a")] ∧
    replaceInText padA mapA1 = (padA, 1) := ⟨rfl, rfl⟩

/-- C4, counterexample: server.py's `replace_in_runs` threads the
evolving text through later field map entries, so the value substituted
for `a` is re-scanned and replaced by the entry for `b`: the result is
`X` with count 2, not the literal `b` token with count 1. -/
theorem c4_recursive_counterexample :
    replaceInRuns [tokenPat ['a']] mapC4 = ([ chars (r"X")], 2) ∧
    ¬ (( chars (r"X") : List Char), (2 : Nat)) = (tokenPat ['b'], 1) :=
  ⟨rfl, by decide⟩

/-- C4, amended: server-new.py's `replace_in_text` is single-pass: the
fields are located in the original text, so a field map binding `a` to
the literal `b` token applied to the `a` token yields the `b` token
literally with count 1, whatever other keys the map contains. -/
theorem c4_single_pass_server_new (m : FieldMap)
    (h : List.lookup (chars (r"a")) m = some (tokenPat ['b'])) :
    replaceInText (tokenPat ['a']) m = (tokenPat ['b'], 1) := by
  have h' : List.lookup (pyStrip ['a']) m = some (tokenPat ['b']) := h
  show List.foldl (newStep m) (tokenPat ['a'], 0) (findTokens2 (tokenPat ['a'])) =
    (tokenPat ['b'], 1)
  rw [show findTokens2 (tokenPat ['a']) = [['a']] from rfl]
  show newStep m (tokenPat ['a'], 0) ['a'] = (tokenPat ['b'], 1)
  rw [newStep, h']
  rfl

/-- C4, witness: the amended theorem applied to the two-entry field map
`mapC4`. -/
theorem c4_single_pass_server_new_witness :
    replaceInText (tokenPat ['a']) mapC4 = (tokenPat ['b'], 1) :=
  c4_single_pass_server_new mapC4 rfl

/-- C5, counterexample: server-gemini.py enumerates each section's
even-page header before its first-page header (and even-page footer
before first-page footer), so on a document with both parts present the
code's enumeration differs from the claimed order. -/
theorem c5_order_counterexample :
    ¬ enumRegionsFindGemini docC5 = enumRegionsClaimed docC5 := by decide

/-- C5, amended: within each variant the enumeration order is identical
between the discovery pass and the substitution pass — server-gemini
visiting all six header/footer variants with even-page before
first-page, server.py visiting only the primary header and footer. -/
theorem c5_enumeration_stable :
    (∀ d : DocxDocument, enumRegionsFindGemini d = enumRegionsReplaceGemini d) ∧
    (∀ d : DocxDocument, enumRegionsFindPy d = enumRegionsReplacePy d) :=
  ⟨fun _ => rfl, fun _ => rfl⟩

/-- C6, counterexample: a nested opening delimiter inside an open token
is not protected: server-new.py discovers the inner name `y` from the
malformed span and substitution rewrites the span, while server.py
matches the whole span as one token whose captured name contains the
nested braces. -/
theorem c6_nested_counterexample :
    findTokens2 nestedTok = [ chars (r"y")] ∧
    replaceInText nestedTok mapY = ([lb, lb, 'x', 'Z'], 1) ∧
    findTokens1 nestedTok = [['x', lb, lb, 'y']] := ⟨rfl, rfl, rfl⟩

/-- C6, amended: any text in which the closing delimiter pair never
occurs — in particular an unterminated opening delimiter — is invisible
to discovery in both grammars and passes through substitution verbatim
with count 0, whatever the field map. -/
theorem c6_unterminated_passthrough (s : List Char) (m : FieldMap)
    (hs : occursIn [rb, rb] s = false) :
    findTokens1 s = [] ∧ findTokens2 s = [] ∧ replaceInText s m = (s, 0) ∧
      replaceFieldsPass m s = (s, 0) := by
  have h2 : findTokens2 s = [] := findTokensAux2_nil (Or.inr hs) s.length
  refine ⟨findTokensAux1_nil (Or.inr hs) s.length, h2, ?_, foldl_passStep_id (Or.inr hs) m⟩
  show List.foldl (newStep m) (s, 0) (findTokens2 s) = (s, 0)
  rw [h2]
  rfl

/-- C6, witness: the amended theorem applied to the unterminated token
text and a field map binding the very name left open. -/
theorem c6_unterminated_passthrough_witness :
    findTokens1 unterminatedTok = [] ∧ findTokens2 unterminatedTok = [] ∧
    replaceInText unterminatedTok mapUnterminated = (unterminatedTok, 0) ∧
    replaceFieldsPass mapUnterminated unterminatedTok = (unterminatedTok, 0) :=
  c6_unterminated_passthrough unterminatedTok mapUnterminated rfl

/-- C7, counterexample: the empty-name token text is not a match at all
— both grammars require at least one inner character — so discovery
reports nothing for it, and in particular never reports the empty
name. -/
theorem c7_empty_token_counterexample :
    findTokens1 emptyTok = [] ∧ findTokens2 emptyTok = [] := ⟨rfl, rfl⟩

/-- C7, amended: the whitespace-only token is matched, but its captured
name is the two-space inner text in server.py and a single space in
server-new.py — never the empty string; with an empty-string key,
server.py's run loop does replace the empty-name token text (its
pattern matches literally, though discovery never reports it), while
server-new.py leaves it untouched with count 0; on the whitespace-only
token, server.py's loop does nothing and server-new.py leaves the text
unchanged while counting 1 through its empty-string lookup. -/
theorem c7_empty_name_behavior :
    findTokens1 wsTok = [[' ', ' ']] ∧ findTokens2 wsTok = [[' ']] ∧
    replaceFieldsPass emptyKeyMap emptyTok = ( chars (r"X"), 1) ∧
    replaceInText emptyTok emptyKeyMap = (emptyTok, 0) ∧
    replaceFieldsPass emptyKeyMap wsTok = (wsTok, 0) ∧
    replaceInText wsTok emptyKeyMap = (wsTok, 1) := ⟨rfl, rfl, rfl, rfl, rfl, rfl⟩

/-- C8, counterexample: server-new.py's document pass guards the
rewrite on a positive count, not on text equality: on the split padded
token the new text equals the old flattened text, yet the region is
still rewritten — its two runs collapse to one — so a rewrite is not
skipped when the new text equals the old. -/
theorem c8_equal_text_rewrite_counterexample :
    replaceParagraphNew runsC8 mapA1 = ([flattenRuns runsC8], 1) ∧
    flattenRuns [flattenRuns runsC8] = flattenRuns runsC8 ∧
    ¬ [flattenRuns runsC8] = runsC8 := ⟨rfl, rfl, by decide⟩

/-- C8, amended: a region whose counted matches are zero is left
completely unchanged by server-new.py's document pass — its runs are
not rewritten and it contributes count 0. -/
theorem c8_zero_count_untouched (runs : Paragraph) (m : FieldMap)
    (h : (replaceInText (flattenRuns runs) m).2 = 0) :
    replaceParagraphNew runs m = (runs, 0) := by
  simp only [replaceParagraphNew]
  rw [if_neg]
  rw [h]
  exact Nat.lt_irrefl 0

/-- C8, witness: the amended theorem applied to a token-free
paragraph. -/
theorem c8_zero_count_untouched_witness :
    replaceParagraphNew [['h', 'i']] mapA1 = ([['h', 'i']], 0) :=
  c8_zero_count_untouched [['h', 'i']] mapA1 rfl

/-- C9, counterexample: server.py's run loop builds a literal pattern
from each field map key, so a key equal to the space-padded name — not
equal to any trimmed token name of the text, which is only `a` —
still replaces the padded token: the result is not the unchanged text
with count 0. -/
theorem c9_spaced_key_counterexample :
    findTokens2 padA = [ chars (r"a")] ∧
    ¬ ([' ', 'a', ' '] : List Char) = chars (r"a") ∧
    replaceInRuns [padA] spacedKeyMap = ([ chars (r"X")], 1) :=
  ⟨rfl, by decide, rfl⟩

/-- C9, amended: a text without the opening delimiter pair discovers to
nothing and passes through both substitution loops unchanged with
count 0 for every field map; and server-new.py's `replace_in_text`
returns the text unchanged with count 0 whenever no located field's
stripped name is a field map key. -/
theorem c9_no_match_identity :
    (∀ (s : List Char) (m : FieldMap), occursIn [lb, lb] s = false →
      findTokens1 s = [] ∧ findTokens2 s = [] ∧ replaceInText s m = (s, 0) ∧
        replaceFieldsPass m s = (s, 0)) ∧
    (∀ (s : List Char) (m : FieldMap),
      (∀ f ∈ findTokens2 s, List.lookup (pyStrip f) m = none) →
      replaceInText s m = (s, 0)) := by
  constructor
  · intro s m hs
    have h2 : findTokens2 s = [] := findTokensAux2_nil (Or.inl hs) s.length
    refine ⟨findTokensAux1_nil (Or.inl hs) s.length, h2, ?_,
      foldl_passStep_id (Or.inl hs) m⟩
    show List.foldl (newStep m) (s, 0) (findTokens2 s) = (s, 0)
    rw [h2]
    rfl
  · intro s m hall
    exact foldl_newStep_id m (findTokens2 s) (s, 0) hall

/-- C9, witness: the amended theorem applied to a delimiter-free text
and to the padded `a` token with a field map binding only `b`. -/
theorem c9_no_match_identity_witness :
    replaceInText ( chars (r"plain text")) mapA1 = ( chars (r"plain text"), 0) ∧
    replaceInText padA [( chars (r"b"), chars (r"2"))] = (padA, 0) := by
  constructor
  · exact ((c9_no_match_identity.1 ( chars (r"plain text")) mapA1 rfl).2.2).1
  · exact c9_no_match_identity.2 padA [( chars (r"b"), chars (r"2"))] (by decide)

/-- C10, confirmed: discovery and substitution in every variant are
pure functions of their inputs — equal texts and equal field maps give
equal results, with no dependence on any other state (the Python
functions' only side effects are debug prints that do not influence
their return values). -/
theorem c10_deterministic (t1 t2 : List Char) (m1 m2 : FieldMap)
    (ht : t1 = t2) (hm : m1 = m2) :
    findTokens1 t1 = findTokens1 t2 ∧ findTokens2 t1 = findTokens2 t2 ∧
    replaceInText t1 m1 = replaceInText t2 m2 ∧
    replaceFieldsPass m1 t1 = replaceFieldsPass m2 t2 := by
  subst ht; subst hm
  exact ⟨rfl, rfl, rfl, rfl⟩

/-- C10, witness: determinism instantiated at the padded `a` token and
its field map. -/
theorem c10_deterministic_witness :
    findTokens1 padA = findTokens1 padA ∧ findTokens2 padA = findTokens2 padA ∧
    replaceInText padA mapA1 = replaceInText padA mapA1 ∧
    replaceFieldsPass mapA1 padA = replaceFieldsPass mapA1 padA :=
  c10_deterministic padA padA mapA1 mapA1 rfl rfl
